import Mathlib

/-!
# Verification of the supergraph payload validator and cascade-delete model

A shallow embedding of `complex_rest_dtcd_supergraph`:

* `serializers.py` / `fields.py`: the `ContentSerializer` validation pipeline.
  The serializer runs under Django REST Framework semantics: each declared
  field (`nodes`, `edges`, `groups`, in declaration order) is decoded by its
  `ListField`, which first checks `allow_empty`, then structurally validates
  every child record (collecting one error per bad record), and only when the
  child pass is clean runs the serializer's `validate_<field>` method; errors
  from the separate fields are accumulated.  The serializer-level `validate`
  method (edge reference integrity, then parent-group existence) runs only
  when no field produced an error, and raises on the first offending value.
* `models/nodes.py`: the neomodel node classes `Port`, `Vertex`, `Group`,
  `Fragment` and their (cascading) `delete` operations, over an explicit
  graph-store state.  neomodel node deletion is a detach-delete: the node and
  all relationship instances incident to it disappear.

Payload record values are modelled as strings (the validator only ever
compares them for equality and membership); a key absent from a record is
modelled by lookup failure, matching Python's `dict.get`.
-/

namespace Supergraph

/-- A payload record: a yFiles dictionary, modelled as an association list.
Lookup returns the first binding, matching a Python `dict` (which cannot
hold duplicate keys). -/
structure Record where
  pairs : List (String × String)
deriving DecidableEq, Repr

/-- Python `dict.get(key)`: `some` value, or `none` when the key is absent. -/
def Record.get (r : Record) (k : String) : Option String :=
  (r.pairs.find? (fun kv => kv.1 == k)).map (·.2)

/-- Python `key in dict`. -/
def Record.hasKey (r : Record) (k : String) : Bool :=
  (r.get k).isSome

/-! ## Schema keys (`settings.py`, `EXCHANGE_SCHEMA["keys"]`) -/

def yfiles_id : String := "primitiveID"
def source_node : String := "sourceNode"
def target_node : String := "targetNode"
def source_port : String := "sourcePort"
def target_port : String := "targetPort"
def parent_id : String := "parentID"

/-- A validation failure, as raised through `self.fail(...)` by the
serializer and its fields.  `emptyList` is the DRF `allow_empty=False`
failure of the `nodes` list field. -/
inductive VError where
  | missingKey (key : String)
  | notUnique
  | selfReference (id : String)
  | doesNotExist (id : String)
  | emptyList
deriving DecidableEq, Repr

/-- The body of a `graph` payload: `nodes` and `edges` are required list
fields, `groups` is optional (`required=False`). -/
structure Payload where
  nodes : List Record
  edges : List Record
  groups : Option (List Record)
deriving DecidableEq, Repr

/-! ## `fields.py` -/

/-- `VertexField.to_internal_value`: the record must contain the id key. -/
def VertexField.to_internal_value (r : Record) : Except VError Record :=
  if r.hasKey yfiles_id then .ok r else .error (.missingKey yfiles_id)

/-- `GroupField` subclasses `VertexField` without change. -/
def GroupField.to_internal_value : Record → Except VError Record :=
  VertexField.to_internal_value

/-- `EdgeField.keys`: the four required edge keys, in source order. -/
def EdgeField.keys : List String :=
  [source_node, target_node, source_port, target_port]

/-- `EdgeField.to_internal_value`: fails on the first missing key of the
four, in order. -/
def EdgeField.to_internal_value (r : Record) : Except VError Record :=
  match EdgeField.keys.find? (fun k => ! r.hasKey k) with
  | some k => .error (.missingKey k)
  | none => .ok r

/-! ## DRF list-field machinery -/

/-- The error (if any) a child field reports for one record. -/
def childError (child : Record → Except VError Record) (r : Record) :
    Option VError :=
  match child r with
  | .error e => some e
  | .ok _ => none

/-- `ListField.run_child_validation`: validate every item, collecting the
per-item errors in order. -/
def run_child_validation (child : Record → Except VError Record)
    (rs : List Record) : List VError :=
  rs.filterMap (childError child)

/-! ## `serializers.py`, `ContentSerializer` -/

/-- `validate_nodes`: ids of all records must be pairwise distinct
(`len(set(ids)) == len(records)`). -/
def validate_nodes (value : List Record) : Except VError (List Record) :=
  let ids := value.map (fun r => r.get yfiles_id)
  if ids.dedup.length ≠ value.length then .error .notUnique else .ok value

/-- `itemgetter(src_node, tgt_node, src_port, tgt_port)` on an edge record. -/
def edgeTuple (r : Record) :
    Option String × Option String × Option String × Option String :=
  (r.get source_node, r.get target_node, r.get source_port,
    r.get target_port)

/-- `validate_edges`: the 4-tuples of all edge records must be pairwise
distinct. -/
def validate_edges (value : List Record) : Except VError (List Record) :=
  let ids := value.map edgeTuple
  if ids.dedup.length ≠ value.length then .error .notUnique else .ok value

/-- One step of the self-reference loop in `validate_groups`: reports the
group's id when its `parentID` equals its id.  (`obj[id]` is always present
here, since the structural pass ran first.) -/
def selfRefHit (g : Record) : Option String :=
  match g.get yfiles_id, g.get parent_id with
  | some i, some pid => if pid = i then some i else none
  | _, _ => none

/-- `validate_groups`: unique ids (by delegating to `validate_nodes`), then
no group may be its own parent; the loop raises on the first offender. -/
def validate_groups (value : List Record) : Except VError (List Record) :=
  match validate_nodes value with
  | .error e => .error e
  | .ok groups =>
    match groups.findSome? selfRefHit with
    | some i => .error (.selfReference i)
    | none => .ok groups

/-- The error list a `validate_<field>` method contributes. -/
def semanticOnly : Except VError (List Record) → List VError
  | .error e => [e]
  | .ok _ => []

/-- A DRF list field's contribution: the child (structural) errors when
there are any — the field validator is then not run — otherwise whatever
the field validator raises. -/
def fieldResult (structural : List VError)
    (semantic : Except VError (List Record)) : List VError :=
  if structural.isEmpty then semanticOnly semantic else structural

/-- The errors contributed by the `nodes` field: `allow_empty=False`, then
per-record structural validation, then `validate_nodes`. -/
def nodesField (ns : List Record) : List VError :=
  if ns.isEmpty then [.emptyList]
  else
    fieldResult (run_child_validation VertexField.to_internal_value ns)
      (validate_nodes ns)

/-- The errors contributed by the `edges` field. -/
def edgesField (es : List Record) : List VError :=
  fieldResult (run_child_validation EdgeField.to_internal_value es)
    (validate_edges es)

/-- The errors contributed by the `groups` field (when submitted). -/
def groupsField (gs : List Record) : List VError :=
  fieldResult (run_child_validation GroupField.to_internal_value gs)
    (validate_groups gs)

/-- DRF `Serializer.to_internal_value`: process the declared fields in
order, accumulating their errors.  An absent `groups` field is skipped
(`required=False`). -/
def fieldErrors (p : Payload) : List VError :=
  nodesField p.nodes ++ edgesField p.edges ++
    (match p.groups with
     | some gs => groupsField gs
     | none => [])

/-- The ids of the submitted node records (`set(map(itemgetter(id), nodes))`;
every record has the id key by the time this runs). -/
def node_ids (p : Payload) : List String :=
  p.nodes.filterMap (fun r => r.get yfiles_id)

/-- `chain.from_iterable(map(itemgetter(src_node, tgt_node), edges))`: the
source and target node ids referenced by the edges, in iteration order. -/
def refIds (es : List Record) : List String :=
  (es.map (fun r =>
    (r.get source_node).toList ++ (r.get target_node).toList)).flatten

/-- `_validate_references`: the first edge endpoint id not among the
submitted node ids, if any. -/
def validate_references (p : Payload) : Option VError :=
  ((refIds p.edges).find? (fun i => ! decide (i ∈ node_ids p))).map
    .doesNotExist

/-- The submitted groups, `data.get("groups", [])`. -/
def groupsList (p : Payload) : List Record :=
  p.groups.getD []

/-- The ids of the submitted group records. -/
def group_ids (gs : List Record) : List String :=
  gs.filterMap (fun r => r.get yfiles_id)

/-- One step of the `_validate_parent_groups_exist` loop. -/
def parentHit (gids : List String) (r : Record) : Option VError :=
  match r.get parent_id with
  | some pid => if pid ∈ gids then none else some (.doesNotExist pid)
  | none => none

/-- `_validate_parent_groups_exist`: for `chain(groups, nodes)`, the first
declared `parentID` that is not a submitted group id, if any. -/
def validate_parent_groups_exist (p : Payload) : Option VError :=
  let gs := groupsList p
  (gs ++ p.nodes).findSome? (parentHit (group_ids gs))

/-- `ContentSerializer.validate`: reference integrity for edges, then parent
existence; returns the data unchanged. -/
def validate (data : Payload) : Except VError Payload :=
  match validate_references data with
  | some e => .error e
  | none =>
    match validate_parent_groups_exist data with
    | some e => .error e
    | none => .ok data

/-- A raised serializer-level error becomes a singleton error report. -/
def liftError : Except VError Payload → Except (List VError) Payload
  | .error e => .error [e]
  | .ok q => .ok q

/-- The whole of DRF `run_validation` for `ContentSerializer`: field
decoding and per-field validators (errors accumulated across fields), then,
only when every field is clean, the serializer-level `validate`. -/
def run_validation (p : Payload) : Except (List VError) Payload :=
  if fieldErrors p = [] then liftError (validate p)
  else .error (fieldErrors p)

/-! ## Lemmas about the structural (field-level) pass -/

theorem childError_vertex_eq_none {r : Record}
    (h : (r.get yfiles_id).isSome) :
    childError VertexField.to_internal_value r = none := by
  simp [childError, VertexField.to_internal_value, Record.hasKey, h]

theorem childError_vertex_eq_some {r : Record}
    (h : r.get yfiles_id = none) :
    childError VertexField.to_internal_value r =
      some (.missingKey yfiles_id) := by
  simp [childError, VertexField.to_internal_value, Record.hasKey, h]

theorem childError_vertex_cases {r : Record} {e : VError}
    (h : childError VertexField.to_internal_value r = some e) :
    e = .missingKey yfiles_id ∧ r.get yfiles_id = none := by
  by_cases hs : (r.get yfiles_id).isSome
  · rw [childError_vertex_eq_none hs] at h
    cases h
  · rw [Option.not_isSome_iff_eq_none] at hs
    rw [childError_vertex_eq_some hs] at h
    exact ⟨(Option.some_inj.mp h).symm, hs⟩

theorem childError_edge_eq_none {r : Record}
    (h : ∀ k ∈ EdgeField.keys, (r.get k).isSome) :
    childError EdgeField.to_internal_value r = none := by
  have hf : EdgeField.keys.find? (fun k => ! r.hasKey k) = none :=
    List.find?_eq_none.mpr (fun k hk => by simp [Record.hasKey, h k hk])
  simp [childError, EdgeField.to_internal_value, hf]

theorem childError_edge_cases {r : Record} {e : VError}
    (h : childError EdgeField.to_internal_value r = some e) :
    ∃ k, k ∈ EdgeField.keys ∧ r.get k = none ∧ e = .missingKey k := by
  unfold childError EdgeField.to_internal_value at h
  cases hf : EdgeField.keys.find? (fun k => ! r.hasKey k) with
  | none => rw [hf] at h; cases h
  | some k =>
    rw [hf] at h
    refine ⟨k, List.mem_of_find?_eq_some hf, ?_, (Option.some_inj.mp h).symm⟩
    have := List.find?_some hf
    simpa [Record.hasKey, Option.not_isSome_iff_eq_none] using this

theorem childError_edge_eq_some_of_missing {r : Record}
    (h : ∃ k ∈ EdgeField.keys, r.get k = none) :
    ∃ k, k ∈ EdgeField.keys ∧ r.get k = none ∧
      childError EdgeField.to_internal_value r =
        some (.missingKey k) := by
  cases hf : EdgeField.keys.find? (fun k => ! r.hasKey k) with
  | none =>
    rcases h with ⟨k, hk, hn⟩
    have := List.find?_eq_none.mp hf k hk
    simp [Record.hasKey, hn] at this
  | some k =>
    refine ⟨k, List.mem_of_find?_eq_some hf, ?_, ?_⟩
    · have := List.find?_some hf
      simpa [Record.hasKey, Option.not_isSome_iff_eq_none] using this
    · simp [childError, EdgeField.to_internal_value, hf]

theorem run_child_vertex_eq_nil {ns : List Record}
    (h : ∀ r ∈ ns, (Record.get r yfiles_id).isSome) :
    run_child_validation VertexField.to_internal_value ns = [] :=
  List.filterMap_eq_nil_iff.mpr fun r hr => childError_vertex_eq_none (h r hr)

theorem run_child_edge_eq_nil {es : List Record}
    (h : ∀ r ∈ es, ∀ k ∈ EdgeField.keys, (Record.get r k).isSome) :
    run_child_validation EdgeField.to_internal_value es = [] :=
  List.filterMap_eq_nil_iff.mpr fun r hr => childError_edge_eq_none (h r hr)

theorem mem_run_child {child : Record → Except VError Record}
    {rs : List Record} {e : VError} :
    e ∈ run_child_validation child rs ↔
      ∃ r, r ∈ rs ∧ childError child r = some e :=
  List.mem_filterMap

/-! ## Lemmas about the semantic (per-field) validators -/

theorem validate_nodes_ok {ns : List Record}
    (h : (ns.map (fun r => Record.get r yfiles_id)).dedup.length =
      ns.length) :
    validate_nodes ns = .ok ns := by
  simp [validate_nodes, h]

theorem validate_nodes_fail {ns : List Record}
    (h : (ns.map (fun r => Record.get r yfiles_id)).dedup.length ≠
      ns.length) :
    validate_nodes ns = .error .notUnique := by
  simp [validate_nodes, h]

theorem validate_nodes_error_shape {ns : List Record} {e : VError}
    (h : validate_nodes ns = .error e) : e = .notUnique := by
  by_cases hc : (ns.map (fun r => Record.get r yfiles_id)).dedup.length =
      ns.length
  · rw [validate_nodes_ok hc] at h
    cases h
  · rw [validate_nodes_fail hc] at h
    exact (Except.error.inj h).symm

theorem validate_nodes_ok_shape {ns l : List Record}
    (h : validate_nodes ns = .ok l) : l = ns := by
  by_cases hc : (ns.map (fun r => Record.get r yfiles_id)).dedup.length =
      ns.length
  · rw [validate_nodes_ok hc] at h
    exact (Except.ok.inj h).symm
  · rw [validate_nodes_fail hc] at h
    cases h

theorem validate_edges_ok {es : List Record}
    (h : (es.map edgeTuple).dedup.length = es.length) :
    validate_edges es = .ok es := by
  simp [validate_edges, h]

theorem validate_edges_fail {es : List Record}
    (h : (es.map edgeTuple).dedup.length ≠ es.length) :
    validate_edges es = .error .notUnique := by
  simp [validate_edges, h]

theorem validate_edges_error_shape {es : List Record} {e : VError}
    (h : validate_edges es = .error e) : e = .notUnique := by
  by_cases hc : (es.map edgeTuple).dedup.length = es.length
  · rw [validate_edges_ok hc] at h
    cases h
  · rw [validate_edges_fail hc] at h
    exact (Except.error.inj h).symm

theorem selfRefHit_eq_none {g : Record}
    (h : Record.get g parent_id ≠ Record.get g yfiles_id ∨
      Record.get g yfiles_id = none) :
    selfRefHit g = none := by
  unfold selfRefHit
  cases hid : g.get yfiles_id with
  | none => cases hp : g.get parent_id <;> rfl
  | some i =>
    cases hp : g.get parent_id with
    | none => rfl
    | some pid =>
      show (if pid = i then some i else none) = none
      rcases h with hne | hnone
      · rw [hid, hp] at hne
        have hpi : pid ≠ i := fun he => hne (by rw [he])
        simp [hpi]
      · rw [hid] at hnone
        cases hnone

theorem selfRefHit_eq_some_self {g : Record} {i : String}
    (hid : Record.get g yfiles_id = some i)
    (hp : Record.get g parent_id = some i) :
    selfRefHit g = some i := by
  simp [selfRefHit, hid, hp]

theorem selfRefHit_cases {g : Record} {i : String}
    (h : selfRefHit g = some i) :
    Record.get g yfiles_id = some i ∧ Record.get g parent_id = some i := by
  unfold selfRefHit at h
  cases hid : g.get yfiles_id with
  | none =>
    rw [hid] at h
    cases (show (none : Option String) = some i from h)
  | some j =>
    cases hp : g.get parent_id with
    | none =>
      rw [hid, hp] at h
      cases (show (none : Option String) = some i from h)
    | some pid =>
      rw [hid, hp] at h
      have h' : (if pid = j then some j else none) = some i := h
      by_cases hpj : pid = j
      · rw [if_pos hpj] at h'
        have hji : j = i := Option.some_inj.mp h'
        subst hji
        exact ⟨rfl, by rw [hpj]⟩
      · rw [if_neg hpj] at h'
        cases h'

theorem validate_groups_ok {gs : List Record}
    (hu : (gs.map (fun r => Record.get r yfiles_id)).dedup.length =
      gs.length)
    (hs : ∀ g ∈ gs, Record.get g parent_id ≠ Record.get g yfiles_id ∨
      Record.get g yfiles_id = none) :
    validate_groups gs = .ok gs := by
  have hf : gs.findSome? selfRefHit = none :=
    List.findSome?_eq_none_iff.mpr fun g hg => selfRefHit_eq_none (hs g hg)
  unfold validate_groups
  rw [validate_nodes_ok hu]
  show (match gs.findSome? selfRefHit with
    | some i => (Except.error (VError.selfReference i) :
        Except VError (List Record))
    | none => Except.ok gs) = Except.ok gs
  rw [hf]

theorem validate_groups_notUnique {gs : List Record}
    (hu : (gs.map (fun r => Record.get r yfiles_id)).dedup.length ≠
      gs.length) :
    validate_groups gs = .error .notUnique := by
  unfold validate_groups
  rw [validate_nodes_fail hu]

theorem validate_groups_selfRef {gs : List Record}
    (hu : (gs.map (fun r => Record.get r yfiles_id)).dedup.length =
      gs.length)
    {g : Record} {i : String} (hg : g ∈ gs)
    (hid : Record.get g yfiles_id = some i)
    (hp : Record.get g parent_id = some i) :
    ∃ j, validate_groups gs = .error (.selfReference j) ∧
      ∃ g', g' ∈ gs ∧ Record.get g' yfiles_id = some j ∧
        Record.get g' parent_id = some j := by
  cases hf : gs.findSome? selfRefHit with
  | none =>
    have hnone := List.findSome?_eq_none_iff.mp hf g hg
    rw [selfRefHit_eq_some_self hid hp] at hnone
    cases hnone
  | some j =>
    rcases List.exists_of_findSome?_eq_some hf with ⟨g', hg', hhit⟩
    rcases selfRefHit_cases hhit with ⟨h1, h2⟩
    refine ⟨j, ?_, g', hg', h1, h2⟩
    unfold validate_groups
    rw [validate_nodes_ok hu]
    show (match gs.findSome? selfRefHit with
      | some i => (Except.error (VError.selfReference i) :
          Except VError (List Record))
      | none => Except.ok gs) = Except.error (VError.selfReference j)
    rw [hf]

theorem validate_groups_error_shape {gs : List Record} {e : VError}
    (h : validate_groups gs = .error e) :
    e = .notUnique ∨ ∃ i, e = .selfReference i := by
  unfold validate_groups at h
  cases hv : validate_nodes gs with
  | error e' =>
    rw [hv] at h
    have h2 : (Except.error e' : Except VError (List Record)) =
        .error e := h
    exact Or.inl ((Except.error.inj h2).symm.trans
      (validate_nodes_error_shape hv))
  | ok l =>
    rw [hv] at h
    have hl : l = gs := validate_nodes_ok_shape hv
    have h2 : (match l.findSome? selfRefHit with
      | some i => (Except.error (VError.selfReference i) :
          Except VError (List Record))
      | none => Except.ok l) = Except.error e := h
    rw [hl] at h2
    cases hf : gs.findSome? selfRefHit with
    | none =>
      rw [hf] at h2
      cases (show (Except.ok gs : Except VError (List Record)) =
        .error e from h2)
    | some i =>
      rw [hf] at h2
      exact Or.inr ⟨i, (Except.error.inj
        (show (Except.error (VError.selfReference i) :
          Except VError (List Record)) = .error e from h2)).symm⟩

/-! ## Behaviour of the three list fields -/

theorem fieldResult_of_structural_nil
    (sem : Except VError (List Record)) :
    fieldResult [] sem = semanticOnly sem := by
  simp [fieldResult]

theorem fieldResult_of_structural_ne {st : List VError} (h : st ≠ [])
    (sem : Except VError (List Record)) : fieldResult st sem = st := by
  rw [fieldResult, if_neg]
  simpa [List.isEmpty_iff] using h

theorem nodesField_eq_nil {ns : List Record} (hne : ns ≠ [])
    (hids : ∀ r ∈ ns, (Record.get r yfiles_id).isSome)
    (hu : (ns.map (fun r => Record.get r yfiles_id)).dedup.length =
      ns.length) :
    nodesField ns = [] := by
  unfold nodesField
  rw [if_neg (by simpa [List.isEmpty_iff] using hne),
    run_child_vertex_eq_nil hids, fieldResult_of_structural_nil,
    validate_nodes_ok hu]
  rfl

theorem nodesField_notUnique {ns : List Record}
    (hids : ∀ r ∈ ns, (Record.get r yfiles_id).isSome)
    (hu : (ns.map (fun r => Record.get r yfiles_id)).dedup.length ≠
      ns.length) :
    nodesField ns = [.notUnique] := by
  have hne : ns ≠ [] := by
    rintro rfl
    simp at hu
  unfold nodesField
  rw [if_neg (by simpa [List.isEmpty_iff] using hne),
    run_child_vertex_eq_nil hids, fieldResult_of_structural_nil,
    validate_nodes_fail hu]
  rfl

theorem nodesField_structural {ns : List Record} (hne : ns ≠ [])
    (h : run_child_validation VertexField.to_internal_value ns ≠ []) :
    nodesField ns =
      run_child_validation VertexField.to_internal_value ns := by
  unfold nodesField
  rw [if_neg (by simpa [List.isEmpty_iff] using hne),
    fieldResult_of_structural_ne h]

theorem edgesField_eq_nil {es : List Record}
    (hkeys : ∀ r ∈ es, ∀ k ∈ EdgeField.keys, (Record.get r k).isSome)
    (hu : (es.map edgeTuple).dedup.length = es.length) :
    edgesField es = [] := by
  unfold edgesField
  rw [run_child_edge_eq_nil hkeys, fieldResult_of_structural_nil,
    validate_edges_ok hu]
  rfl

theorem edgesField_notUnique {es : List Record}
    (hkeys : ∀ r ∈ es, ∀ k ∈ EdgeField.keys, (Record.get r k).isSome)
    (hu : (es.map edgeTuple).dedup.length ≠ es.length) :
    edgesField es = [.notUnique] := by
  unfold edgesField
  rw [run_child_edge_eq_nil hkeys, fieldResult_of_structural_nil,
    validate_edges_fail hu]
  rfl

theorem edgesField_structural {es : List Record}
    (h : run_child_validation EdgeField.to_internal_value es ≠ []) :
    edgesField es = run_child_validation EdgeField.to_internal_value es := by
  unfold edgesField
  rw [fieldResult_of_structural_ne h]

theorem run_child_group_eq_nil {gs : List Record}
    (h : ∀ r ∈ gs, (Record.get r yfiles_id).isSome) :
    run_child_validation GroupField.to_internal_value gs = [] :=
  run_child_vertex_eq_nil h

theorem groupsField_eq_nil {gs : List Record}
    (hids : ∀ r ∈ gs, (Record.get r yfiles_id).isSome)
    (hu : (gs.map (fun r => Record.get r yfiles_id)).dedup.length =
      gs.length)
    (hs : ∀ g ∈ gs, Record.get g parent_id ≠ Record.get g yfiles_id ∨
      Record.get g yfiles_id = none) :
    groupsField gs = [] := by
  unfold groupsField
  rw [run_child_group_eq_nil hids, fieldResult_of_structural_nil,
    validate_groups_ok hu hs]
  rfl

theorem groupsField_notUnique {gs : List Record}
    (hids : ∀ r ∈ gs, (Record.get r yfiles_id).isSome)
    (hu : (gs.map (fun r => Record.get r yfiles_id)).dedup.length ≠
      gs.length) :
    groupsField gs = [.notUnique] := by
  unfold groupsField
  rw [run_child_group_eq_nil hids, fieldResult_of_structural_nil,
    validate_groups_notUnique hu]
  rfl

theorem groupsField_selfRef {gs : List Record}
    (hids : ∀ r ∈ gs, (Record.get r yfiles_id).isSome)
    (hu : (gs.map (fun r => Record.get r yfiles_id)).dedup.length =
      gs.length)
    {g : Record} {i : String} (hg : g ∈ gs)
    (hid : Record.get g yfiles_id = some i)
    (hp : Record.get g parent_id = some i) :
    ∃ j, groupsField gs = [.selfReference j] ∧
      ∃ g', g' ∈ gs ∧ Record.get g' yfiles_id = some j ∧
        Record.get g' parent_id = some j := by
  rcases validate_groups_selfRef hu hg hid hp with ⟨j, hv, hw⟩
  refine ⟨j, ?_, hw⟩
  unfold groupsField
  rw [run_child_group_eq_nil hids, fieldResult_of_structural_nil, hv]
  rfl

theorem groupsField_structural {gs : List Record}
    (h : run_child_validation GroupField.to_internal_value gs ≠ []) :
    groupsField gs =
      run_child_validation GroupField.to_internal_value gs := by
  unfold groupsField
  rw [fieldResult_of_structural_ne h]

/-! ## Well-formedness bundles and `fieldErrors` -/

/-- The `nodes` collection passes its field checks: non-empty, every record
has the id key, and the ids are pairwise distinct. -/
abbrev nodesOk (p : Payload) : Prop :=
  p.nodes ≠ [] ∧ (∀ r ∈ p.nodes, (Record.get r yfiles_id).isSome) ∧
    (p.nodes.map (fun r => Record.get r yfiles_id)).dedup.length =
      p.nodes.length

/-- The `edges` collection passes its field checks: every record has the
four keys and the 4-tuples are pairwise distinct. -/
abbrev edgesOk (p : Payload) : Prop :=
  (∀ r ∈ p.edges, ∀ k ∈ EdgeField.keys, (Record.get r k).isSome) ∧
    (p.edges.map edgeTuple).dedup.length = p.edges.length

/-- The `groups` collection (empty when not submitted) passes its field
checks: every record has the id key, ids are pairwise distinct, and no
group is its own parent. -/
abbrev groupsOk (p : Payload) : Prop :=
  (∀ r ∈ groupsList p, (Record.get r yfiles_id).isSome) ∧
    ((groupsList p).map (fun r => Record.get r yfiles_id)).dedup.length =
      (groupsList p).length ∧
    (∀ g ∈ groupsList p,
      Record.get g parent_id ≠ Record.get g yfiles_id ∨
        Record.get g yfiles_id = none)

theorem groupsPart_eq_nil {p : Payload} (hg : groupsOk p) :
    (match p.groups with
     | some gs => groupsField gs
     | none => []) = [] := by
  rcases hg with ⟨h1, h2, h3⟩
  cases hgs : p.groups with
  | none => rfl
  | some gs =>
    have he : groupsList p = gs := by simp [groupsList, hgs]
    rw [he] at h1 h2 h3
    exact groupsField_eq_nil h1 h2 h3

theorem fieldErrors_eq_nil {p : Payload} (hn : nodesOk p) (he : edgesOk p)
    (hg : groupsOk p) : fieldErrors p = [] := by
  unfold fieldErrors
  rw [nodesField_eq_nil hn.1 hn.2.1 hn.2.2, edgesField_eq_nil he.1 he.2,
    groupsPart_eq_nil hg]
  rfl

theorem run_validation_fields_error {p : Payload}
    (h : fieldErrors p ≠ []) :
    run_validation p = .error (fieldErrors p) := by
  unfold run_validation
  rw [if_neg h]

theorem run_validation_fields_nil {p : Payload} (h : fieldErrors p = []) :
    run_validation p = liftError (validate p) := by
  unfold run_validation
  rw [if_pos h]

/-! ## Behaviour of the serializer-level `validate` -/

theorem validate_references_eq_none {p : Payload}
    (h : ∀ i ∈ refIds p.edges, i ∈ node_ids p) :
    validate_references p = none := by
  unfold validate_references
  have hf : (refIds p.edges).find? (fun i => ! decide (i ∈ node_ids p)) =
      none :=
    List.find?_eq_none.mpr fun i hi => by simp [h i hi]
  rw [hf]
  rfl

theorem validate_references_eq_some {p : Payload} {i : String}
    (hi : i ∈ refIds p.edges) (hm : i ∉ node_ids p) :
    ∃ j, validate_references p = some (.doesNotExist j) ∧
      j ∈ refIds p.edges ∧ j ∉ node_ids p := by
  cases hf : (refIds p.edges).find? (fun i => ! decide (i ∈ node_ids p))
    with
  | none =>
    have hni := List.find?_eq_none.mp hf i hi
    simp [hm] at hni
  | some j =>
    refine ⟨j, ?_, List.mem_of_find?_eq_some hf, ?_⟩
    · unfold validate_references
      rw [hf]
      rfl
    · have := List.find?_some hf
      simpa using this

theorem validate_references_shape {p : Payload} {e : VError}
    (h : validate_references p = some e) : ∃ i, e = .doesNotExist i := by
  unfold validate_references at h
  cases hf : (refIds p.edges).find? (fun i => ! decide (i ∈ node_ids p))
    with
  | none =>
    rw [hf] at h
    cases (show (none : Option VError) = some e from h)
  | some j =>
    rw [hf] at h
    exact ⟨j, (Option.some_inj.mp
      (show some (VError.doesNotExist j) = some e from h)).symm⟩

theorem parentHit_eq_none {gids : List String} {r : Record}
    (h : ∀ pid, Record.get r parent_id = some pid → pid ∈ gids) :
    parentHit gids r = none := by
  unfold parentHit
  cases hp : r.get parent_id with
  | none => rfl
  | some pid =>
    show (if pid ∈ gids then none else some (VError.doesNotExist pid)) =
      none
    rw [if_pos (h pid hp)]

theorem parentHit_cases {gids : List String} {r : Record} {e : VError}
    (h : parentHit gids r = some e) :
    ∃ pid, Record.get r parent_id = some pid ∧ pid ∉ gids ∧
      e = .doesNotExist pid := by
  unfold parentHit at h
  cases hp : r.get parent_id with
  | none =>
    rw [hp] at h
    cases (show (none : Option VError) = some e from h)
  | some pid =>
    rw [hp] at h
    have h' : (if pid ∈ gids then none
        else some (VError.doesNotExist pid)) = some e := h
    by_cases hm : pid ∈ gids
    · rw [if_pos hm] at h'
      cases h'
    · rw [if_neg hm] at h'
      exact ⟨pid, rfl, hm, (Option.some_inj.mp h').symm⟩

theorem validate_parents_eq_none {p : Payload}
    (h : ∀ r ∈ groupsList p ++ p.nodes, ∀ pid,
      Record.get r parent_id = some pid →
        pid ∈ group_ids (groupsList p)) :
    validate_parent_groups_exist p = none := by
  show (groupsList p ++ p.nodes).findSome?
    (parentHit (group_ids (groupsList p))) = none
  exact List.findSome?_eq_none_iff.mpr fun r hr => parentHit_eq_none (h r hr)

theorem validate_parents_eq_some {p : Payload} {r : Record} {pid : String}
    (hr : r ∈ groupsList p ++ p.nodes)
    (hp : Record.get r parent_id = some pid)
    (hm : pid ∉ group_ids (groupsList p)) :
    ∃ j, validate_parent_groups_exist p = some (.doesNotExist j) ∧
      (∃ r', r' ∈ groupsList p ++ p.nodes ∧
        Record.get r' parent_id = some j) ∧
      j ∉ group_ids (groupsList p) := by
  cases hf : (groupsList p ++ p.nodes).findSome?
      (parentHit (group_ids (groupsList p))) with
  | none =>
    have hnone := List.findSome?_eq_none_iff.mp hf r hr
    unfold parentHit at hnone
    rw [hp] at hnone
    have h' : (if pid ∈ group_ids (groupsList p) then none
        else some (VError.doesNotExist pid)) = none := hnone
    rw [if_neg hm] at h'
    cases h'
  | some e =>
    rcases List.exists_of_findSome?_eq_some hf with ⟨r', hr', hhit⟩
    rcases parentHit_cases hhit with ⟨pid', hp', hm', he⟩
    subst he
    refine ⟨pid', ?_, ⟨r', hr', hp'⟩, hm'⟩
    show (groupsList p ++ p.nodes).findSome?
      (parentHit (group_ids (groupsList p))) = _
    rw [hf]

theorem validate_parents_shape {p : Payload} {e : VError}
    (h : validate_parent_groups_exist p = some e) :
    ∃ i, e = .doesNotExist i := by
  have h' : (groupsList p ++ p.nodes).findSome?
      (parentHit (group_ids (groupsList p))) = some e := h
  rcases List.exists_of_findSome?_eq_some h' with ⟨r', _, hhit⟩
  rcases parentHit_cases hhit with ⟨pid', _, _, he⟩
  exact ⟨pid', he⟩

theorem validate_eq_ok {p : Payload} (h1 : validate_references p = none)
    (h2 : validate_parent_groups_exist p = none) :
    validate p = .ok p := by
  unfold validate
  rw [h1]
  show (match validate_parent_groups_exist p with
    | some e => (Except.error e : Except VError Payload)
    | none => Except.ok p) = Except.ok p
  rw [h2]

theorem validate_eq_error_refs {p : Payload} {e : VError}
    (h1 : validate_references p = some e) : validate p = .error e := by
  unfold validate
  rw [h1]

theorem validate_eq_error_parents {p : Payload} {e : VError}
    (h1 : validate_references p = none)
    (h2 : validate_parent_groups_exist p = some e) :
    validate p = .error e := by
  unfold validate
  rw [h1]
  show (match validate_parent_groups_exist p with
    | some e => (Except.error e : Except VError Payload)
    | none => Except.ok p) = Except.error e
  rw [h2]

theorem validate_ok_eq {p q : Payload} (h : validate p = .ok q) : q = p := by
  unfold validate at h
  cases h1 : validate_references p with
  | some e =>
    rw [h1] at h
    cases (show (Except.error e : Except VError Payload) = .ok q from h)
  | none =>
    rw [h1] at h
    have h2 : (match validate_parent_groups_exist p with
      | some e => (Except.error e : Except VError Payload)
      | none => Except.ok p) = .ok q := h
    cases h3 : validate_parent_groups_exist p with
    | some e =>
      rw [h3] at h2
      cases (show (Except.error e : Except VError Payload) = .ok q from h2)
    | none =>
      rw [h3] at h2
      exact (Except.ok.inj
        (show (Except.ok p : Except VError Payload) = .ok q from h2)).symm

theorem validate_error_shape {p : Payload} {e : VError}
    (h : validate p = .error e) : ∃ i, e = .doesNotExist i := by
  unfold validate at h
  cases h1 : validate_references p with
  | some e' =>
    rw [h1] at h
    have he : e' = e := Except.error.inj
      (show (Except.error e' : Except VError Payload) = .error e from h)
    exact he ▸ validate_references_shape h1
  | none =>
    rw [h1] at h
    have h2 : (match validate_parent_groups_exist p with
      | some e => (Except.error e : Except VError Payload)
      | none => Except.ok p) = .error e := h
    cases h3 : validate_parent_groups_exist p with
    | some e' =>
      rw [h3] at h2
      have he : e' = e := Except.error.inj
        (show (Except.error e' : Except VError Payload) = .error e from h2)
      exact he ▸ validate_parents_shape h3
    | none =>
      rw [h3] at h2
      cases (show (Except.ok p : Except VError Payload) = .error e from h2)

/-! ## Which error shapes each field can contribute -/

theorem mem_nodesField_shape {ns : List Record} {e : VError}
    (h : e ∈ nodesField ns) :
    e = .emptyList ∨ e = .missingKey yfiles_id ∨ e = .notUnique := by
  unfold nodesField at h
  by_cases hemp : ns.isEmpty = true
  · rw [if_pos hemp] at h
    simp at h
    exact Or.inl h
  · rw [if_neg hemp] at h
    unfold fieldResult at h
    by_cases hrc :
      (run_child_validation VertexField.to_internal_value ns).isEmpty = true
    · rw [if_pos hrc] at h
      cases hv : validate_nodes ns with
      | error e' =>
        rw [hv] at h
        have h2 : e ∈ [e'] := h
        simp at h2
        exact Or.inr (Or.inr (h2.trans (validate_nodes_error_shape hv)))
      | ok l =>
        rw [hv] at h
        cases (show e ∈ ([] : List VError) from h)
    · rw [if_neg hrc] at h
      rcases mem_run_child.mp h with ⟨r, _, hc⟩
      exact Or.inr (Or.inl (childError_vertex_cases hc).1)

theorem mem_edgesField_shape {es : List Record} {e : VError}
    (h : e ∈ edgesField es) :
    (∃ k, e = .missingKey k) ∨ e = .notUnique := by
  unfold edgesField fieldResult at h
  by_cases hrc :
    (run_child_validation EdgeField.to_internal_value es).isEmpty = true
  · rw [if_pos hrc] at h
    cases hv : validate_edges es with
    | error e' =>
      rw [hv] at h
      have h2 : e ∈ [e'] := h
      simp at h2
      exact Or.inr (h2.trans (validate_edges_error_shape hv))
    | ok l =>
      rw [hv] at h
      cases (show e ∈ ([] : List VError) from h)
  · rw [if_neg hrc] at h
    rcases mem_run_child.mp h with ⟨r, _, hc⟩
    rcases childError_edge_cases hc with ⟨k, _, _, he⟩
    exact Or.inl ⟨k, he⟩

theorem mem_groupsField_shape {gs : List Record} {e : VError}
    (h : e ∈ groupsField gs) :
    e = .missingKey yfiles_id ∨ e = .notUnique ∨
      ∃ i, e = .selfReference i := by
  unfold groupsField fieldResult at h
  by_cases hrc :
    (run_child_validation GroupField.to_internal_value gs).isEmpty = true
  · rw [if_pos hrc] at h
    cases hv : validate_groups gs with
    | error e' =>
      rw [hv] at h
      have h2 : e ∈ [e'] := h
      simp at h2
      subst h2
      rcases validate_groups_error_shape hv with h3 | h3
      · exact Or.inr (Or.inl h3)
      · exact Or.inr (Or.inr h3)
    | ok l =>
      rw [hv] at h
      cases (show e ∈ ([] : List VError) from h)
  · rw [if_neg hrc] at h
    rcases mem_run_child.mp h with ⟨r, _, hc⟩
    exact Or.inl (childError_vertex_cases hc).1

theorem mem_fieldErrors_shape {p : Payload} {e : VError}
    (h : e ∈ fieldErrors p) :
    e = .emptyList ∨ (∃ k, e = .missingKey k) ∨ e = .notUnique ∨
      ∃ i, e = .selfReference i := by
  unfold fieldErrors at h
  rw [List.mem_append, List.mem_append] at h
  rcases h with (h | h) | h
  · rcases mem_nodesField_shape h with h1 | h1 | h1
    · exact Or.inl h1
    · exact Or.inr (Or.inl ⟨yfiles_id, h1⟩)
    · exact Or.inr (Or.inr (Or.inl h1))
  · rcases mem_edgesField_shape h with h1 | h1
    · exact Or.inr (Or.inl h1)
    · exact Or.inr (Or.inr (Or.inl h1))
  · cases hgs : p.groups with
    | none =>
      rw [hgs] at h
      cases h
    | some gs =>
      rw [hgs] at h
      rcases mem_groupsField_shape h with h1 | h1 | h1
      · exact Or.inr (Or.inl ⟨yfiles_id, h1⟩)
      · exact Or.inr (Or.inr (Or.inl h1))
      · exact Or.inr (Or.inr (Or.inr h1))

theorem fieldErrors_no_doesNotExist {p : Payload} {e : VError}
    (h : e ∈ fieldErrors p) : ∀ i, e ≠ .doesNotExist i := by
  intro i he
  subst he
  rcases mem_fieldErrors_shape h with h1 | ⟨k, h1⟩ | h1 | ⟨j, h1⟩ <;>
    cases h1

theorem fieldErrors_groups_some {p : Payload} {gs : List Record}
    (hgs : p.groups = some gs) :
    fieldErrors p =
      nodesField p.nodes ++ edgesField p.edges ++ groupsField gs := by
  unfold fieldErrors
  rw [hgs]

theorem mem_nodesField_of_ne_nil {ns : List Record} {e : VError}
    (hne : ns ≠ []) (h : e ∈ nodesField ns) :
    e = .missingKey yfiles_id ∨ e = .notUnique := by
  unfold nodesField at h
  rw [if_neg (by simpa [List.isEmpty_iff] using hne)] at h
  unfold fieldResult at h
  by_cases hrc :
    (run_child_validation VertexField.to_internal_value ns).isEmpty = true
  · rw [if_pos hrc] at h
    cases hv : validate_nodes ns with
    | error e' =>
      rw [hv] at h
      have h2 : e ∈ [e'] := h
      simp at h2
      exact Or.inr (h2.trans (validate_nodes_error_shape hv))
    | ok l =>
      rw [hv] at h
      cases (show e ∈ ([] : List VError) from h)
  · rw [if_neg hrc] at h
    rcases mem_run_child.mp h with ⟨r, _, hc⟩
    exact Or.inl (childError_vertex_cases hc).1

/-- The only error kinds the payload validator can report (on an input
meeting the non-empty-`nodes` contract). -/
def isPayloadError (e : VError) : Prop :=
  (∃ k, e = .missingKey k) ∨ e = .notUnique ∨
    (∃ i, e = .selfReference i) ∨ ∃ i, e = .doesNotExist i

theorem mem_fieldErrors_isPayloadError {p : Payload} {e : VError}
    (hne : p.nodes ≠ []) (h : e ∈ fieldErrors p) : isPayloadError e := by
  unfold fieldErrors at h
  rw [List.mem_append, List.mem_append] at h
  rcases h with (h | h) | h
  · rcases mem_nodesField_of_ne_nil hne h with h1 | h1
    · exact Or.inl ⟨yfiles_id, h1⟩
    · exact Or.inr (Or.inl h1)
  · rcases mem_edgesField_shape h with h1 | h1
    · exact Or.inl h1
    · exact Or.inr (Or.inl h1)
  · cases hgs : p.groups with
    | none =>
      rw [hgs] at h
      cases h
    | some gs =>
      rw [hgs] at h
      rcases mem_groupsField_shape h with h1 | h1 | h1
      · exact Or.inl ⟨yfiles_id, h1⟩
      · exact Or.inr (Or.inl h1)
      · exact Or.inr (Or.inr (Or.inl h1))

/-! ## `models/nodes.py`: the persisted graph and cascading deletes

The graph store is modelled extensionally: node sets per label and
relationship instances as pairs of uids.  `InputPort` and `OutputPort` are
`Port` subclasses connected to their vertex through the same relation type,
so a port node carries a direction tag and the `ports` relation is one list
of (vertex uid, port uid) pairs.  neomodel's `delete` is a detach-delete:
removing a node also removes every relationship instance incident to it. -/

/-- The direction of a `Port` node (`InputPort` / `OutputPort`). -/
inductive PortDir where
  | input
  | output
deriving DecidableEq, Repr

/-- A snapshot of the graph store. -/
structure GraphState where
  /-- `Fragment` node uids. -/
  fragments : List String
  /-- `Vertex` node uids. -/
  vertices : List String
  /-- `Group` node uids. -/
  groups : List String
  /-- `Port` node uids with their direction. -/
  ports : List (String × PortDir)
  /-- `Vertex.ports` relation instances (vertex uid, port uid). -/
  portsRel : List (String × String)
  /-- `Fragment.vertices` relation instances (fragment uid, vertex uid). -/
  verticesRel : List (String × String)
  /-- `Fragment.groups` relation instances (fragment uid, group uid). -/
  groupsRel : List (String × String)
  /-- `Port.neighbor` relation instances (port uid, port uid). -/
  neighborRel : List (String × String)
deriving DecidableEq, Repr

/-- `Port.delete` (inherited detach-delete): remove the port node and every
relationship instance incident to it. -/
def Port.delete (s : GraphState) (p : String) : GraphState :=
  { s with
    ports := s.ports.filter (fun q => ! (q.1 == p))
    portsRel := s.portsRel.filter (fun q => ! (q.2 == p))
    neighborRel :=
      s.neighborRel.filter (fun q => ! (q.1 == p) && ! (q.2 == p)) }

/-- `self.ports.all()` on a vertex: the ports related to it through the
generic port relation, regardless of direction. -/
def Vertex.portsAll (s : GraphState) (v : String) : List String :=
  (s.portsRel.filter (fun q => q.1 == v)).map (·.2)

/-- `super().delete()` on a vertex: detach-delete the vertex node alone. -/
def Vertex.deleteNode (s : GraphState) (v : String) : GraphState :=
  { s with
    vertices := s.vertices.filter (fun w => ! (w == v))
    portsRel := s.portsRel.filter (fun q => ! (q.1 == v))
    verticesRel := s.verticesRel.filter (fun q => ! (q.2 == v)) }

/-- `Vertex.delete(cascade)`: when cascading, first delete every connected
port, then the vertex node itself. -/
def Vertex.delete (s : GraphState) (v : String) (cascade : Bool) :
    GraphState :=
  let s1 := if cascade then (Vertex.portsAll s v).foldl Port.delete s else s
  Vertex.deleteNode s1 v

/-- `Group.delete` (inherited detach-delete). -/
def Group.delete (s : GraphState) (g : String) : GraphState :=
  { s with
    groups := s.groups.filter (fun h => ! (h == g))
    groupsRel := s.groupsRel.filter (fun q => ! (q.2 == g)) }

/-- `self.vertices.all()` on a fragment. -/
def Fragment.verticesAll (s : GraphState) (f : String) : List String :=
  (s.verticesRel.filter (fun q => q.1 == f)).map (·.2)

/-- `self.groups.all()` on a fragment. -/
def Fragment.groupsAll (s : GraphState) (f : String) : List String :=
  (s.groupsRel.filter (fun q => q.1 == f)).map (·.2)

/-- `Fragment.clear`: cascade-delete every contained vertex, then plainly
delete every contained group (the group query runs on the updated state). -/
def Fragment.clear (s : GraphState) (f : String) : GraphState :=
  let s1 :=
    (Fragment.verticesAll s f).foldl (fun st v => Vertex.delete st v true) s
  (Fragment.groupsAll s1 f).foldl Group.delete s1

/-- `super().delete()` on a fragment: detach-delete the fragment node. -/
def Fragment.deleteNode (s : GraphState) (f : String) : GraphState :=
  { s with
    fragments := s.fragments.filter (fun h => ! (h == f))
    verticesRel := s.verticesRel.filter (fun q => ! (q.1 == f))
    groupsRel := s.groupsRel.filter (fun q => ! (q.1 == f)) }

/-- `Fragment.delete(cascade)`: when cascading, `clear` first, then delete
the fragment node itself. -/
def Fragment.delete (s : GraphState) (f : String) (cascade : Bool) :
    GraphState :=
  let s1 := if cascade then Fragment.clear s f else s
  Fragment.deleteNode s1 f

/-! ## Lemmas about `Port.delete`, `Vertex.delete`, `Group.delete` -/

theorem mem_ports_portDelete {s : GraphState} {p : String}
    {x : String × PortDir} (h : x ∈ (Port.delete s p).ports) :
    x ∈ s.ports ∧ x.1 ≠ p := by
  simpa [Port.delete, List.mem_filter] using h

theorem mem_portsRel_portDelete {s : GraphState} {p : String}
    {pr : String × String} (h : pr ∈ (Port.delete s p).portsRel) :
    pr ∈ s.portsRel ∧ pr.2 ≠ p := by
  simpa [Port.delete, List.mem_filter] using h

theorem ports_foldl_portDelete_sub {L : List String} {s : GraphState}
    {x : String × PortDir} (h : x ∈ (L.foldl Port.delete s).ports) :
    x ∈ s.ports := by
  induction L generalizing s with
  | nil => exact h
  | cons a t ih => exact (mem_ports_portDelete (ih h)).1

theorem foldl_portDelete_kills {L : List String} {s : GraphState}
    {p : String} (hp : p ∈ L) (d : PortDir) :
    (p, d) ∉ (L.foldl Port.delete s).ports := by
  induction L generalizing s with
  | nil => cases hp
  | cons a t ih =>
    intro h
    rcases List.mem_cons.mp hp with rfl | hmem
    · exact (mem_ports_portDelete (ports_foldl_portDelete_sub h)).2 rfl
    · exact ih hmem h

theorem vertices_foldl_portDelete (L : List String) (s : GraphState) :
    (L.foldl Port.delete s).vertices = s.vertices := by
  induction L generalizing s with
  | nil => rfl
  | cons a t ih => exact ih (Port.delete s a)

theorem groups_foldl_portDelete (L : List String) (s : GraphState) :
    (L.foldl Port.delete s).groups = s.groups := by
  induction L generalizing s with
  | nil => rfl
  | cons a t ih => exact ih (Port.delete s a)

theorem groupsRel_foldl_portDelete (L : List String) (s : GraphState) :
    (L.foldl Port.delete s).groupsRel = s.groupsRel := by
  induction L generalizing s with
  | nil => rfl
  | cons a t ih => exact ih (Port.delete s a)

theorem ports_vertexDelete (s : GraphState) (v : String) :
    (Vertex.delete s v true).ports =
      ((Vertex.portsAll s v).foldl Port.delete s).ports := rfl

theorem ports_vertexDelete_sub {s : GraphState} {v : String}
    {x : String × PortDir} (h : x ∈ (Vertex.delete s v true).ports) :
    x ∈ s.ports := by
  rw [ports_vertexDelete] at h
  exact ports_foldl_portDelete_sub h

theorem mem_portsAll {s : GraphState} {v q : String}
    (h : (v, q) ∈ s.portsRel) : q ∈ Vertex.portsAll s v := by
  exact List.mem_map.mpr ⟨(v, q), List.mem_filter.mpr ⟨h, by simp⟩, rfl⟩

theorem vertexDelete_kills_own {s : GraphState} {v q : String}
    (h : (v, q) ∈ s.portsRel) (d : PortDir) :
    (q, d) ∉ (Vertex.delete s v true).ports := by
  rw [ports_vertexDelete]
  exact foldl_portDelete_kills (mem_portsAll h) d

/-- Every ownership pair of `src` either survives in `st` or its port node
is already gone: the invariant threaded through a cascading fragment
delete. -/
def livePairs (src : List (String × String)) (st : GraphState) : Prop :=
  ∀ pr ∈ src, pr ∈ st.portsRel ∨ ∀ d, (pr.2, d) ∉ st.ports

theorem livePairs_refl (s : GraphState) : livePairs s.portsRel s :=
  fun _ h => Or.inl h

theorem livePairs_portDelete {src : List (String × String)}
    {st : GraphState} {p : String} (h : livePairs src st) :
    livePairs src (Port.delete st p) := by
  intro pr hpr
  rcases h pr hpr with hin | hdead
  · by_cases hp : pr.2 = p
    · right
      intro d hd
      exact (mem_ports_portDelete hd).2 hp
    · left
      simpa [Port.delete, List.mem_filter, hp] using hin
  · right
    intro d hd
    exact hdead d (mem_ports_portDelete hd).1

theorem livePairs_foldl_portDelete {src : List (String × String)}
    {st : GraphState} {L : List String} (h : livePairs src st) :
    livePairs src (L.foldl Port.delete st) := by
  induction L generalizing st with
  | nil => exact h
  | cons a t ih => exact ih (livePairs_portDelete h)

theorem portsRel_vertexDelete (s : GraphState) (v : String) :
    (Vertex.delete s v true).portsRel =
      ((Vertex.portsAll s v).foldl Port.delete s).portsRel.filter
        (fun q => ! (q.1 == v)) := rfl

theorem livePairs_vertexDelete {src : List (String × String)}
    {st : GraphState} {v : String} (h : livePairs src st) :
    livePairs src (Vertex.delete st v true) := by
  intro pr hpr
  rcases h pr hpr with hin | hdead
  · have h1 : livePairs st.portsRel
        ((Vertex.portsAll st v).foldl Port.delete st) :=
      livePairs_foldl_portDelete (livePairs_refl st)
    by_cases hv : pr.1 = v
    · right
      intro d hd
      rw [ports_vertexDelete] at hd
      have hq : pr.2 ∈ Vertex.portsAll st v := by
        have : (pr.1, pr.2) ∈ st.portsRel := by simpa using hin
        rw [hv] at this
        exact mem_portsAll this
      exact foldl_portDelete_kills hq d hd
    · rcases h1 pr hin with hin1 | hdead1
      · left
        rw [portsRel_vertexDelete]
        exact List.mem_filter.mpr ⟨hin1, by simp [hv]⟩
      · right
        intro d hd
        rw [ports_vertexDelete] at hd
        exact hdead1 d hd
  · right
    intro d hd
    exact hdead d (ports_vertexDelete_sub hd)

theorem ports_foldl_vertexDelete_sub {L : List String} {st : GraphState}
    {x : String × PortDir}
    (h : x ∈ (L.foldl (fun a b => Vertex.delete a b true) st).ports) :
    x ∈ st.ports := by
  induction L generalizing st with
  | nil => exact h
  | cons a t ih => exact ports_vertexDelete_sub (ih h)

theorem foldl_vertexDelete_kills_ports {L : List String} {st : GraphState}
    {src : List (String × String)} (hlive : livePairs src st)
    {v q : String} (hv : v ∈ L) (hpr : (v, q) ∈ src) (d : PortDir) :
    (q, d) ∉ (L.foldl (fun a b => Vertex.delete a b true) st).ports := by
  induction L generalizing st with
  | nil => cases hv
  | cons a t ih =>
    rcases List.mem_cons.mp hv with rfl | hmem
    · intro h
      have h2 : (q, d) ∈ (Vertex.delete st v true).ports :=
        ports_foldl_vertexDelete_sub h
      rcases hlive (v, q) hpr with hin | hdead
      · exact vertexDelete_kills_own hin d h2
      · exact hdead d (ports_vertexDelete_sub h2)
    · exact ih (livePairs_vertexDelete hlive) hmem

theorem mem_vertices_vertexDelete {s : GraphState} {v : String} {x : String}
    (h : x ∈ (Vertex.delete s v true).vertices) : x ∈ s.vertices ∧ x ≠ v := by
  have : (Vertex.delete s v true).vertices =
      s.vertices.filter (fun w => ! (w == v)) := by
    show (((Vertex.portsAll s v).foldl Port.delete s).vertices).filter _ = _
    rw [vertices_foldl_portDelete]
  rw [this] at h
  simpa [List.mem_filter] using h

theorem vertices_foldl_vertexDelete_sub {L : List String} {st : GraphState}
    {x : String}
    (h : x ∈ (L.foldl (fun a b => Vertex.delete a b true) st).vertices) :
    x ∈ st.vertices := by
  induction L generalizing st with
  | nil => exact h
  | cons a t ih => exact (mem_vertices_vertexDelete (ih h)).1

theorem foldl_vertexDelete_kills_vertices {L : List String}
    {st : GraphState} {v : String} (hv : v ∈ L) :
    v ∉ (L.foldl (fun a b => Vertex.delete a b true) st).vertices := by
  induction L generalizing st with
  | nil => cases hv
  | cons a t ih =>
    intro h
    rcases List.mem_cons.mp hv with rfl | hmem
    · exact (mem_vertices_vertexDelete (vertices_foldl_vertexDelete_sub h)).2
        rfl
    · exact ih hmem h

theorem groups_vertexDelete (s : GraphState) (v : String) :
    (Vertex.delete s v true).groups = s.groups := by
  show ((Vertex.portsAll s v).foldl Port.delete s).groups = s.groups
  exact groups_foldl_portDelete _ _

theorem groupsRel_vertexDelete (s : GraphState) (v : String) :
    (Vertex.delete s v true).groupsRel = s.groupsRel := by
  show ((Vertex.portsAll s v).foldl Port.delete s).groupsRel = s.groupsRel
  exact groupsRel_foldl_portDelete _ _

theorem groups_foldl_vertexDelete (L : List String) (st : GraphState) :
    (L.foldl (fun a b => Vertex.delete a b true) st).groups = st.groups := by
  induction L generalizing st with
  | nil => rfl
  | cons a t ih => rw [List.foldl_cons, ih, groups_vertexDelete]

theorem groupsRel_foldl_vertexDelete (L : List String) (st : GraphState) :
    (L.foldl (fun a b => Vertex.delete a b true) st).groupsRel =
      st.groupsRel := by
  induction L generalizing st with
  | nil => rfl
  | cons a t ih => rw [List.foldl_cons, ih, groupsRel_vertexDelete]

theorem mem_groups_groupDelete {s : GraphState} {g x : String}
    (h : x ∈ (Group.delete s g).groups) : x ∈ s.groups ∧ x ≠ g := by
  simpa [Group.delete, List.mem_filter] using h

theorem groups_foldl_groupDelete_sub {L : List String} {s : GraphState}
    {x : String} (h : x ∈ (L.foldl Group.delete s).groups) : x ∈ s.groups := by
  induction L generalizing s with
  | nil => exact h
  | cons a t ih => exact (mem_groups_groupDelete (ih h)).1

theorem foldl_groupDelete_kills {L : List String} {s : GraphState}
    {g : String} (hg : g ∈ L) : g ∉ (L.foldl Group.delete s).groups := by
  induction L generalizing s with
  | nil => cases hg
  | cons a t ih =>
    intro h
    rcases List.mem_cons.mp hg with rfl | hmem
    · exact (mem_groups_groupDelete (groups_foldl_groupDelete_sub h)).2 rfl
    · exact ih hmem h

theorem ports_foldl_groupDelete (L : List String) (s : GraphState) :
    (L.foldl Group.delete s).ports = s.ports := by
  induction L generalizing s with
  | nil => rfl
  | cons a t ih => exact ih (Group.delete s a)

theorem vertices_foldl_groupDelete (L : List String) (s : GraphState) :
    (L.foldl Group.delete s).vertices = s.vertices := by
  induction L generalizing s with
  | nil => rfl
  | cons a t ih => exact ih (Group.delete s a)

theorem mem_verticesAll {s : GraphState} {f v : String}
    (h : (f, v) ∈ s.verticesRel) : v ∈ Fragment.verticesAll s f :=
  List.mem_map.mpr ⟨(f, v), List.mem_filter.mpr ⟨h, by simp⟩, rfl⟩

theorem mem_groupsAll {s : GraphState} {f g : String}
    (h : (f, g) ∈ s.groupsRel) : g ∈ Fragment.groupsAll s f :=
  List.mem_map.mpr ⟨(f, g), List.mem_filter.mpr ⟨h, by simp⟩, rfl⟩

/-- The state after the vertex-deletion loop of `Fragment.clear`. -/
def clearStage1 (s : GraphState) (f : String) : GraphState :=
  (Fragment.verticesAll s f).foldl (fun a b => Vertex.delete a b true) s

theorem fragment_clear_eq (s : GraphState) (f : String) :
    Fragment.clear s f =
      (Fragment.groupsAll (clearStage1 s f) f).foldl Group.delete
        (clearStage1 s f) := rfl

theorem fragment_delete_true_eq (s : GraphState) (f : String) :
    Fragment.delete s f true =
      Fragment.deleteNode (Fragment.clear s f) f := rfl

/-- Claim C1: deleting a Fragment with cascade enabled cascade-deletes every
contained Vertex (so each such vertex and, through the generic port
relation and regardless of direction, every port it owned are gone),
plainly deletes every contained Group, and deletes the Fragment node
itself; and deleting a Vertex with cascade enabled deletes every Port it
owned before the vertex node. -/
theorem claim_c1_cascade_delete_completeness (s : GraphState) (f : String) :
    (∀ v, (f, v) ∈ s.verticesRel → v ∉ (Fragment.delete s f true).vertices) ∧
    (∀ g, (f, g) ∈ s.groupsRel → g ∉ (Fragment.delete s f true).groups) ∧
    (∀ v q d, (f, v) ∈ s.verticesRel → (v, q) ∈ s.portsRel →
      (q, d) ∉ (Fragment.delete s f true).ports) ∧
    f ∉ (Fragment.delete s f true).fragments ∧
    (∀ v q d, (v, q) ∈ s.portsRel →
      (q, d) ∉ (Vertex.delete s v true).ports) := by
  have hveq : (Fragment.delete s f true).vertices =
      (clearStage1 s f).vertices := by
    rw [fragment_delete_true_eq]
    show (Fragment.clear s f).vertices = _
    rw [fragment_clear_eq, vertices_foldl_groupDelete]
  have hpeq : (Fragment.delete s f true).ports = (clearStage1 s f).ports := by
    rw [fragment_delete_true_eq]
    show (Fragment.clear s f).ports = _
    rw [fragment_clear_eq, ports_foldl_groupDelete]
  have hgeq : (Fragment.delete s f true).groups =
      ((Fragment.groupsAll (clearStage1 s f) f).foldl Group.delete
        (clearStage1 s f)).groups := by
    rw [fragment_delete_true_eq]
    show (Fragment.clear s f).groups = _
    rw [fragment_clear_eq]
  refine ⟨?_, ?_, ?_, ?_, ?_⟩
  · intro v hv
    rw [hveq]
    exact foldl_vertexDelete_kills_vertices (mem_verticesAll hv)
  · intro g hg
    rw [hgeq]
    have hg1 : (f, g) ∈ (clearStage1 s f).groupsRel := by
      unfold clearStage1
      rw [groupsRel_foldl_vertexDelete]
      exact hg
    exact foldl_groupDelete_kills (mem_groupsAll hg1)
  · intro v q d hv hq
    rw [hpeq]
    exact foldl_vertexDelete_kills_ports (livePairs_refl s)
      (mem_verticesAll hv) hq d
  · rw [fragment_delete_true_eq]
    intro h
    simp [Fragment.deleteNode, List.mem_filter] at h
  · intro v q d hq
    exact vertexDelete_kills_own hq d

/-- A one-fragment store: fragment `f` contains vertex `v` (owning port `p`)
and group `g`. -/
def c1State : GraphState :=
  { fragments := ["f"]
    vertices := ["v"]
    groups := ["g"]
    ports := [("p", PortDir.input)]
    portsRel := [("v", "p")]
    verticesRel := [("f", "v")]
    groupsRel := [("f", "g")]
    neighborRel := [] }

/-- Witness for claim C1 at a concrete one-fragment store. -/
theorem claim_c1_cascade_delete_completeness_witness :
    "v" ∉ (Fragment.delete c1State "f" true).vertices ∧
    "g" ∉ (Fragment.delete c1State "f" true).groups ∧
    ("p", PortDir.input) ∉ (Fragment.delete c1State "f" true).ports ∧
    "f" ∉ (Fragment.delete c1State "f" true).fragments ∧
    ("p", PortDir.input) ∉ (Vertex.delete c1State "v" true).ports :=
  ⟨(claim_c1_cascade_delete_completeness c1State "f").1 "v" (by decide),
   (claim_c1_cascade_delete_completeness c1State "f").2.1 "g" (by decide),
   (claim_c1_cascade_delete_completeness c1State "f").2.2.1 "v" "p"
     PortDir.input (by decide) (by decide),
   (claim_c1_cascade_delete_completeness c1State "f").2.2.2.1,
   (claim_c1_cascade_delete_completeness c1State "f").2.2.2.2 "v" "p"
     PortDir.input (by decide)⟩

/-! ## The claims about the payload validator -/

/-- A node record with just an id. -/
def nodeRec (i : String) : Record := ⟨[(yfiles_id, i)]⟩

/-- A node or group record with an id and a parent id. -/
def nodeRecP (i pid : String) : Record :=
  ⟨[(yfiles_id, i), (parent_id, pid)]⟩

/-- An edge record with its four endpoint keys. -/
def edgeRec (a b x y : String) : Record :=
  ⟨[(source_node, a), (target_node, b), (source_port, x),
    (target_port, y)]⟩

/-- Claim C2: a validator call either returns the validated payload
unchanged or fails, every reported failure being one of the four kinds
MissingKey, NotUnique, SelfReference, DoesNotExist; the validator is a
pure function of the payload, so two runs on the same payload give the
same result.  (The payload meets the input contract: a non-empty `nodes`
sequence.) -/
theorem claim_c2_validator_result_shape (p : Payload)
    (hne : p.nodes ≠ []) :
    (∀ q, run_validation p = .ok q → q = p) ∧
    (∀ es, run_validation p = .error es → es ≠ [] ∧
      ∀ e ∈ es, isPayloadError e) ∧
    run_validation p = run_validation p := by
  refine ⟨?_, ?_, rfl⟩
  · intro q hq
    by_cases hf : fieldErrors p = []
    · rw [run_validation_fields_nil hf] at hq
      cases hv : validate p with
      | error e =>
        rw [hv] at hq
        cases (show (Except.error [e] : Except (List VError) Payload) =
          .ok q from hq)
      | ok q' =>
        rw [hv] at hq
        have hqq : q' = q := Except.ok.inj
          (show (Except.ok q' : Except (List VError) Payload) =
            .ok q from hq)
        exact hqq ▸ validate_ok_eq hv
    · rw [run_validation_fields_error hf] at hq
      cases hq
  · intro es hes
    by_cases hf : fieldErrors p = []
    · rw [run_validation_fields_nil hf] at hes
      cases hv : validate p with
      | error e =>
        rw [hv] at hes
        have h2 : ([e] : List VError) = es := Except.error.inj
          (show (Except.error [e] : Except (List VError) Payload) =
            .error es from hes)
        subst h2
        refine ⟨by simp, ?_⟩
        intro e' he'
        simp at he'
        subst he'
        rcases validate_error_shape hv with ⟨i, hi⟩
        exact Or.inr (Or.inr (Or.inr ⟨i, hi⟩))
      | ok q =>
        rw [hv] at hes
        cases (show (Except.ok q : Except (List VError) Payload) =
          .error es from hes)
    · rw [run_validation_fields_error hf] at hes
      have h2 : fieldErrors p = es := Except.error.inj hes
      subst h2
      exact ⟨hf, fun e he => mem_fieldErrors_isPayloadError hne he⟩

/-- A well-formed two-node payload with one edge, from the spec's worked
example. -/
def c2Payload : Payload :=
  { nodes := [nodeRec "a", nodeRec "b"]
    edges := [edgeRec "a" "b" "p1" "p2"]
    groups := none }

/-- Witness for claim C2 at a concrete payload. -/
theorem claim_c2_validator_result_shape_witness :
    c2Payload.nodes ≠ [] ∧
    ((∀ q, run_validation c2Payload = .ok q → q = c2Payload) ∧
      (∀ es, run_validation c2Payload = .error es → es ≠ [] ∧
        ∀ e ∈ es, isPayloadError e) ∧
      run_validation c2Payload = run_validation c2Payload) :=
  ⟨by decide, claim_c2_validator_result_shape c2Payload (by decide)⟩

/-- Claim C3: repeated ids among the node records make validation fail
with NotUnique; the same rule applied to the group records makes
validation fail with NotUnique; and uniqueness is checked per submitted
collection only — when each collection is internally duplicate-free, no
NotUnique is reported, even if a node and a group share an id. -/
theorem claim_c3_id_uniqueness_per_collection (p : Payload) :
    ((∀ r ∈ p.nodes, (Record.get r yfiles_id).isSome) →
      (p.nodes.map (fun r => Record.get r yfiles_id)).dedup.length <
        p.nodes.length →
      ∃ es, run_validation p = .error es ∧ VError.notUnique ∈ es) ∧
    (∀ gs, p.groups = some gs →
      (∀ r ∈ gs, (Record.get r yfiles_id).isSome) →
      (gs.map (fun r => Record.get r yfiles_id)).dedup.length <
        gs.length →
      ∃ es, run_validation p = .error es ∧ VError.notUnique ∈ es) ∧
    (nodesOk p → edgesOk p → groupsOk p →
      ∀ es, run_validation p = .error es → VError.notUnique ∉ es) := by
  refine ⟨?_, ?_, ?_⟩
  · intro hids hlt
    have hnf : nodesField p.nodes = [.notUnique] :=
      nodesField_notUnique hids (Nat.ne_of_lt hlt)
    have hmem : VError.notUnique ∈ fieldErrors p := by
      unfold fieldErrors
      rw [hnf]
      simp
    have hne : fieldErrors p ≠ [] := fun h0 => by
      rw [h0] at hmem
      cases hmem
    exact ⟨fieldErrors p, run_validation_fields_error hne, hmem⟩
  · intro gs hgs hids hlt
    have hgf : groupsField gs = [.notUnique] :=
      groupsField_notUnique hids (Nat.ne_of_lt hlt)
    have hmem : VError.notUnique ∈ fieldErrors p := by
      rw [fieldErrors_groups_some hgs, hgf]
      simp
    have hne : fieldErrors p ≠ [] := fun h0 => by
      rw [h0] at hmem
      cases hmem
    exact ⟨fieldErrors p, run_validation_fields_error hne, hmem⟩
  · intro hn he hg es hes
    rw [run_validation_fields_nil (fieldErrors_eq_nil hn he hg)] at hes
    cases hv : validate p with
    | error e =>
      rw [hv] at hes
      have h2 : ([e] : List VError) = es := Except.error.inj
        (show (Except.error [e] : Except (List VError) Payload) =
          .error es from hes)
      subst h2
      intro hmem
      simp at hmem
      rcases validate_error_shape hv with ⟨i, hi⟩
      rw [← hmem] at hi
      cases hi
    | ok q =>
      rw [hv] at hes
      cases (show (Except.ok q : Except (List VError) Payload) =
        .error es from hes)

/-- A payload with a duplicated node id, a duplicated group id, and a
node/group id collision. -/
def c3Payload : Payload :=
  { nodes := [nodeRec "a", nodeRec "a"]
    edges := []
    groups := some [nodeRec "g", nodeRec "g"] }

/-- A payload with a node and a group sharing id `a`, each collection
internally duplicate-free. -/
def c3PayloadCross : Payload :=
  { nodes := [nodeRec "a"]
    edges := []
    groups := some [nodeRec "a"] }

/-- Witness for claim C3: duplicate node ids and duplicate group ids each
produce NotUnique, and a cross-collection id collision alone does not. -/
theorem claim_c3_id_uniqueness_per_collection_witness :
    (∃ es, run_validation c3Payload = .error es ∧
      VError.notUnique ∈ es) ∧
    (∃ es, run_validation c3Payload = .error es ∧
      VError.notUnique ∈ es) ∧
    (∀ es, run_validation c3PayloadCross = .error es →
      VError.notUnique ∉ es) :=
  ⟨(claim_c3_id_uniqueness_per_collection c3Payload).1 (by decide)
      (by decide),
   (claim_c3_id_uniqueness_per_collection c3Payload).2.1
      [nodeRec "g", nodeRec "g"] rfl (by decide) (by decide),
   (claim_c3_id_uniqueness_per_collection c3PayloadCross).2.2 (by decide)
      (by decide) (by decide)⟩

/-- Claim C4: edge identity is the full 4-tuple (source node, target node,
source port, target port); when the count of distinct 4-tuples is less
than the edge-record count, validation fails with NotUnique. -/
theorem claim_c4_edge_tuple_uniqueness (p : Payload)
    (hkeys : ∀ r ∈ p.edges, ∀ k ∈ EdgeField.keys,
      (Record.get r k).isSome)
    (hlt : (p.edges.map edgeTuple).dedup.length < p.edges.length) :
    ∃ es, run_validation p = .error es ∧ VError.notUnique ∈ es := by
  have hef : edgesField p.edges = [.notUnique] :=
    edgesField_notUnique hkeys (Nat.ne_of_lt hlt)
  have hmem : VError.notUnique ∈ fieldErrors p := by
    unfold fieldErrors
    rw [hef]
    simp
  have hne : fieldErrors p ≠ [] := fun h0 => by
    rw [h0] at hmem
    cases hmem
  exact ⟨fieldErrors p, run_validation_fields_error hne, hmem⟩

/-- A payload with the same edge 4-tuple submitted twice. -/
def c4Payload : Payload :=
  { nodes := [nodeRec "a", nodeRec "b"]
    edges := [edgeRec "a" "b" "p1" "p2", edgeRec "a" "b" "p1" "p2"]
    groups := none }

/-- Witness for claim C4 at a concrete payload. -/
theorem claim_c4_edge_tuple_uniqueness_witness :
    ∃ es, run_validation c4Payload = .error es ∧
      VError.notUnique ∈ es :=
  claim_c4_edge_tuple_uniqueness c4Payload (by decide) (by decide)

/-- Claim C5: when an edge's source or target node id is not among the
submitted node ids (and the payload passes the earlier field checks),
validation fails with a DoesNotExist carrying a missing referenced node
id. -/
theorem claim_c5_edge_reference_integrity (p : Payload)
    (hn : nodesOk p) (he : edgesOk p) (hg : groupsOk p)
    (r : Record) (hr : r ∈ p.edges) (i : String)
    (hend : Record.get r source_node = some i ∨
      Record.get r target_node = some i)
    (hm : i ∉ node_ids p) :
    ∃ j, run_validation p = .error [.doesNotExist j] ∧
      j ∈ refIds p.edges ∧ j ∉ node_ids p := by
  have hi : i ∈ refIds p.edges := by
    unfold refIds
    rw [List.mem_flatten]
    refine ⟨(Record.get r source_node).toList ++
      (Record.get r target_node).toList, List.mem_map.mpr ⟨r, hr, rfl⟩, ?_⟩
    rcases hend with h | h <;> simp [h]
  rcases validate_references_eq_some hi hm with ⟨j, hv, hj1, hj2⟩
  refine ⟨j, ?_, hj1, hj2⟩
  rw [run_validation_fields_nil (fieldErrors_eq_nil hn he hg),
    validate_eq_error_refs hv]
  rfl

/-- The spec's worked example: one node `a`, one edge referring to the
unsubmitted node `x`. -/
def c5Payload : Payload :=
  { nodes := [nodeRec "a"]
    edges := [edgeRec "a" "x" "p1" "p2"]
    groups := none }

/-- Witness for claim C5: the spec's example fails with
`DoesNotExist("x")`. -/
theorem claim_c5_edge_reference_integrity_witness :
    ∃ j, run_validation c5Payload = .error [.doesNotExist j] ∧
      j ∈ refIds c5Payload.edges ∧ j ∉ node_ids c5Payload :=
  claim_c5_edge_reference_integrity c5Payload (by decide) (by decide)
    (by decide) (edgeRec "a" "x" "p1" "p2") (by decide) "x"
    (Or.inr (by decide)) (by decide)

/-- Claim C6: every node and group record that declares a parentID must
name a submitted group id; a violation makes validation fail with a
DoesNotExist carrying a declared-but-missing parent id, and records
declaring no parentID are not checked (validation succeeds when all
declared parents exist). -/
theorem claim_c6_parent_reference_integrity (p : Payload)
    (hn : nodesOk p) (he : edgesOk p) (hg : groupsOk p)
    (hrefs : ∀ i ∈ refIds p.edges, i ∈ node_ids p) :
    ((∀ r ∈ groupsList p ++ p.nodes, ∀ pid,
        Record.get r parent_id = some pid →
          pid ∈ group_ids (groupsList p)) →
      run_validation p = .ok p) ∧
    (∀ r ∈ groupsList p ++ p.nodes, ∀ pid,
      Record.get r parent_id = some pid →
      pid ∉ group_ids (groupsList p) →
      ∃ j, run_validation p = .error [.doesNotExist j] ∧
        (∃ r', r' ∈ groupsList p ++ p.nodes ∧
          Record.get r' parent_id = some j) ∧
        j ∉ group_ids (groupsList p)) := by
  have hf := fieldErrors_eq_nil hn he hg
  have hrefs' := validate_references_eq_none hrefs
  constructor
  · intro hall
    rw [run_validation_fields_nil hf,
      validate_eq_ok hrefs' (validate_parents_eq_none hall)]
    rfl
  · intro r hr pid hp hm
    rcases validate_parents_eq_some hr hp hm with ⟨j, hv, hw, hj⟩
    refine ⟨j, ?_, hw, hj⟩
    rw [run_validation_fields_nil hf, validate_eq_error_parents hrefs' hv]
    rfl

/-- A payload whose node declares the missing parent `g`. -/
def c6Payload : Payload :=
  { nodes := [nodeRecP "a" "g"]
    edges := []
    groups := none }

/-- A payload whose node declares the submitted parent group `g`, next to
a node with no parent. -/
def c6PayloadOk : Payload :=
  { nodes := [nodeRecP "a" "g", nodeRec "b"]
    edges := []
    groups := some [nodeRec "g"] }

/-- Witness for claim C6: a declared missing parent fails with
`DoesNotExist`, and a payload whose only declared parent exists (the other
record declaring none) validates. -/
theorem claim_c6_parent_reference_integrity_witness :
    run_validation c6PayloadOk = .ok c6PayloadOk ∧
    ∃ j, run_validation c6Payload = .error [.doesNotExist j] ∧
      (∃ r', r' ∈ groupsList c6Payload ++ c6Payload.nodes ∧
        Record.get r' parent_id = some j) ∧
      j ∉ group_ids (groupsList c6Payload) :=
  ⟨(claim_c6_parent_reference_integrity c6PayloadOk (by decide)
      (by decide) (by decide) (by decide)).1 (by decide),
   (claim_c6_parent_reference_integrity c6Payload (by decide) (by decide)
      (by decide) (by decide)).2 (nodeRecP "a" "g") (by decide) "g"
      (by decide) (by decide)⟩

/-- Claim C7: a group record whose parentID equals its own id makes
validation fail with SelfReference carrying that group's id. -/
theorem claim_c7_group_self_reference (p : Payload) (gs : List Record)
    (hgs : p.groups = some gs) (hn : nodesOk p) (he : edgesOk p)
    (hids : ∀ r ∈ gs, (Record.get r yfiles_id).isSome)
    (hu : (gs.map (fun r => Record.get r yfiles_id)).dedup.length =
      gs.length)
    (g : Record) (hg : g ∈ gs) (i : String)
    (hid : Record.get g yfiles_id = some i)
    (hp : Record.get g parent_id = some i) :
    ∃ j, run_validation p = .error [.selfReference j] ∧
      ∃ g', g' ∈ gs ∧ Record.get g' yfiles_id = some j ∧
        Record.get g' parent_id = some j := by
  rcases groupsField_selfRef hids hu hg hid hp with ⟨j, hgf, hw⟩
  have hfe : fieldErrors p = [.selfReference j] := by
    rw [fieldErrors_groups_some hgs, nodesField_eq_nil hn.1 hn.2.1 hn.2.2,
      edgesField_eq_nil he.1 he.2, hgf]
    rfl
  refine ⟨j, ?_, hw⟩
  rw [run_validation_fields_error (by rw [hfe]; simp), hfe]

/-- The spec's worked example: a group that is its own parent. -/
def c7Payload : Payload :=
  { nodes := [nodeRec "a"]
    edges := []
    groups := some [nodeRecP "g1" "g1"] }

/-- Witness for claim C7: the spec's example fails with
`SelfReference("g1")`. -/
theorem claim_c7_group_self_reference_witness :
    ∃ j, run_validation c7Payload = .error [.selfReference j] ∧
      ∃ g', g' ∈ [nodeRecP "g1" "g1"] ∧
        Record.get g' yfiles_id = some j ∧
        Record.get g' parent_id = some j :=
  claim_c7_group_self_reference c7Payload [nodeRecP "g1" "g1"] rfl
    (by decide) (by decide) (by decide) (by decide) (nodeRecP "g1" "g1")
    (by decide) "g1" (by decide) (by decide)

/-- The C8 counterexample payload: duplicated node ids next to an edge
record that is missing all four required keys. -/
def c8Payload : Payload :=
  { nodes := [nodeRec "a", nodeRec "a"]
    edges := [⟨[]⟩]
    groups := none }

/-- Counterexample to claim C8: on a payload whose edge record is missing
every required key while the node ids are duplicated, validation reports
the semantic NotUnique from the node-uniqueness check ahead of the
structural MissingKey — the structural failure was not detected before the
semantic checks ran, and the failure is not the MissingKey alone. -/
theorem claim_c8_counterexample :
    run_validation c8Payload =
      .error [VError.notUnique, VError.missingKey source_node] ∧
    run_validation c8Payload ≠
      .error [VError.missingKey source_node] := by
  refine ⟨rfl, fun h => ?_⟩
  have h0 : run_validation c8Payload =
      .error [VError.notUnique, VError.missingKey source_node] := rfl
  have h2 : ([VError.notUnique, VError.missingKey source_node] :
      List VError) = [VError.missingKey source_node] :=
    Except.error.inj (h0.symm.trans h)
  simp at h2

/-- Claim C8 as amended: a node or group record missing the id key, and an
edge record missing any of the four keys, each cause validation to fail
with a MissingKey naming a missing key of that record among the reported
errors, and the reference-integrity (DoesNotExist) checks never run; the
structural failure suppresses its own collection's semantic checks, but
uniqueness results of the other collections may accompany the MissingKey
and precede it in the report. -/
theorem claim_c8_amended_structural_errors (p : Payload) :
    (∀ r ∈ p.nodes, Record.get r yfiles_id = none →
      ∃ es, run_validation p = .error es ∧
        VError.missingKey yfiles_id ∈ es ∧
        ∀ i, VError.doesNotExist i ∉ es) ∧
    (∀ r ∈ p.edges, (∃ k ∈ EdgeField.keys, Record.get r k = none) →
      ∃ es k, run_validation p = .error es ∧ k ∈ EdgeField.keys ∧
        Record.get r k = none ∧ VError.missingKey k ∈ es ∧
        ∀ i, VError.doesNotExist i ∉ es) ∧
    (∀ gs, p.groups = some gs → ∀ r ∈ gs,
      Record.get r yfiles_id = none →
      ∃ es, run_validation p = .error es ∧
        VError.missingKey yfiles_id ∈ es ∧
        ∀ i, VError.doesNotExist i ∉ es) := by
  refine ⟨?_, ?_, ?_⟩
  · intro r hr hnone
    have hne : p.nodes ≠ [] := fun h0 => by
      rw [h0] at hr
      cases hr
    have hrc : VError.missingKey yfiles_id ∈
        run_child_validation VertexField.to_internal_value p.nodes :=
      mem_run_child.mpr ⟨r, hr, childError_vertex_eq_some hnone⟩
    have hmem : VError.missingKey yfiles_id ∈ nodesField p.nodes := by
      rw [nodesField_structural hne (fun h0 => by
        rw [h0] at hrc
        cases hrc)]
      exact hrc
    have hmem2 : VError.missingKey yfiles_id ∈ fieldErrors p :=
      List.mem_append.mpr (Or.inl (List.mem_append.mpr (Or.inl hmem)))
    have hne2 : fieldErrors p ≠ [] := fun h0 => by
      rw [h0] at hmem2
      cases hmem2
    exact ⟨fieldErrors p, run_validation_fields_error hne2, hmem2,
      fun i hmem3 => fieldErrors_no_doesNotExist hmem3 i rfl⟩
  · intro r hr hmiss
    rcases childError_edge_eq_some_of_missing hmiss with ⟨k, hk, hkn, hce⟩
    have hrc : VError.missingKey k ∈
        run_child_validation EdgeField.to_internal_value p.edges :=
      mem_run_child.mpr ⟨r, hr, hce⟩
    have hmem : VError.missingKey k ∈ edgesField p.edges := by
      rw [edgesField_structural (fun h0 => by
        rw [h0] at hrc
        cases hrc)]
      exact hrc
    have hmem2 : VError.missingKey k ∈ fieldErrors p :=
      List.mem_append.mpr (Or.inl (List.mem_append.mpr (Or.inr hmem)))
    have hne2 : fieldErrors p ≠ [] := fun h0 => by
      rw [h0] at hmem2
      cases hmem2
    exact ⟨fieldErrors p, k, run_validation_fields_error hne2, hk, hkn,
      hmem2, fun i hmem3 => fieldErrors_no_doesNotExist hmem3 i rfl⟩
  · intro gs hgs r hr hnone
    have hrc : VError.missingKey yfiles_id ∈
        run_child_validation GroupField.to_internal_value gs :=
      mem_run_child.mpr ⟨r, hr, childError_vertex_eq_some hnone⟩
    have hmem : VError.missingKey yfiles_id ∈ groupsField gs := by
      rw [groupsField_structural (fun h0 => by
        rw [h0] at hrc
        cases hrc)]
      exact hrc
    have hmem2 : VError.missingKey yfiles_id ∈ fieldErrors p := by
      rw [fieldErrors_groups_some hgs]
      exact List.mem_append.mpr (Or.inr hmem)
    have hne2 : fieldErrors p ≠ [] := fun h0 => by
      rw [h0] at hmem2
      cases hmem2
    exact ⟨fieldErrors p, run_validation_fields_error hne2, hmem2,
      fun i hmem3 => fieldErrors_no_doesNotExist hmem3 i rfl⟩

/-- Witness for the amended claim C8, at a payload whose only edge record
is missing all four keys. -/
theorem claim_c8_amended_structural_errors_witness :
    ∃ es k, run_validation c8Payload = .error es ∧
      k ∈ EdgeField.keys ∧ Record.get (⟨[]⟩ : Record) k = none ∧
      VError.missingKey k ∈ es ∧
      ∀ i, VError.doesNotExist i ∉ es :=
  (claim_c8_amended_structural_errors c8Payload).2.1 ⟨[]⟩ (by decide)
    ⟨source_node, by decide, by decide⟩

/-- Claim C9: the checks classify the first failure in the fixed
cross-category order (uniqueness before group self-reference before edge
reference integrity before parent reference integrity).  Conjunct one is
the claim's highlighted instance: duplicated group ids together with a
self-referencing group report NotUnique, not SelfReference.  Conjunct two:
a group self-reference together with a dangling edge reference reports
SelfReference, no DoesNotExist.  Conjunct three: a dangling edge reference
together with a missing parent reports the DoesNotExist of an edge
endpoint. -/
theorem claim_c9_check_ordering :
    (∀ p gs, p.groups = some gs → nodesOk p → edgesOk p →
      (∀ r ∈ gs, (Record.get r yfiles_id).isSome) →
      (gs.map (fun r => Record.get r yfiles_id)).dedup.length <
        gs.length →
      (∃ g ∈ gs, ∃ i, Record.get g yfiles_id = some i ∧
        Record.get g parent_id = some i) →
      run_validation p = .error [.notUnique] ∧
        ∀ i, VError.selfReference i ∉ [VError.notUnique]) ∧
    (∀ p gs, p.groups = some gs → nodesOk p → edgesOk p →
      (∀ r ∈ gs, (Record.get r yfiles_id).isSome) →
      (gs.map (fun r => Record.get r yfiles_id)).dedup.length =
        gs.length →
      (∃ g ∈ gs, ∃ i, Record.get g yfiles_id = some i ∧
        Record.get g parent_id = some i) →
      (∃ i ∈ refIds p.edges, i ∉ node_ids p) →
      (∃ j, run_validation p = .error [.selfReference j]) ∧
        ∀ es i, run_validation p = .error es →
          VError.doesNotExist i ∉ es) ∧
    (∀ p, nodesOk p → edgesOk p → groupsOk p →
      (∃ i ∈ refIds p.edges, i ∉ node_ids p) →
      (∃ r ∈ groupsList p ++ p.nodes, ∃ pid,
        Record.get r parent_id = some pid ∧
        pid ∉ group_ids (groupsList p)) →
      ∃ j, run_validation p = .error [.doesNotExist j] ∧
        j ∈ refIds p.edges ∧ j ∉ node_ids p) := by
  refine ⟨?_, ?_, ?_⟩
  · intro p gs hgs hn he hids hlt hself
    have hfe : fieldErrors p = [.notUnique] := by
      rw [fieldErrors_groups_some hgs,
        nodesField_eq_nil hn.1 hn.2.1 hn.2.2,
        edgesField_eq_nil he.1 he.2,
        groupsField_notUnique hids (Nat.ne_of_lt hlt)]
      rfl
    refine ⟨?_, fun i hx => by simp at hx⟩
    rw [run_validation_fields_error (by rw [hfe]; simp), hfe]
  · intro p gs hgs hn he hids hu hself hrefs
    rcases hself with ⟨g, hg, i, hid, hp⟩
    rcases groupsField_selfRef hids hu hg hid hp with ⟨j, hgf, _⟩
    have hfe : fieldErrors p = [.selfReference j] := by
      rw [fieldErrors_groups_some hgs,
        nodesField_eq_nil hn.1 hn.2.1 hn.2.2,
        edgesField_eq_nil he.1 he.2, hgf]
      rfl
    have hrun : run_validation p = .error [.selfReference j] := by
      rw [run_validation_fields_error (by rw [hfe]; simp), hfe]
    refine ⟨⟨j, hrun⟩, ?_⟩
    intro es i' hes hmem
    rw [hrun] at hes
    have h2 : ([VError.selfReference j] : List VError) = es :=
      Except.error.inj hes
    rw [← h2] at hmem
    simp at hmem
  · intro p hn he hg hrefs hpar
    rcases hrefs with ⟨i, hi, hm⟩
    rcases validate_references_eq_some hi hm with ⟨j, hv, hj1, hj2⟩
    refine ⟨j, ?_, hj1, hj2⟩
    rw [run_validation_fields_nil (fieldErrors_eq_nil hn he hg),
      validate_eq_error_refs hv]
    rfl

/-- Duplicate group ids and a self-referencing group at once. -/
def c9PayloadA : Payload :=
  { nodes := [nodeRec "a"]
    edges := []
    groups := some [nodeRec "g", nodeRecP "g" "g"] }

/-- A self-referencing group next to a dangling edge reference. -/
def c9PayloadB : Payload :=
  { nodes := [nodeRec "a"]
    edges := [edgeRec "a" "x" "p1" "p2"]
    groups := some [nodeRecP "g" "g"] }

/-- A dangling edge reference next to a missing parent. -/
def c9PayloadC : Payload :=
  { nodes := [nodeRecP "a" "h"]
    edges := [edgeRec "a" "x" "p1" "p2"]
    groups := none }

/-- Witness for claim C9, one concrete payload per ordering conjunct. -/
theorem claim_c9_check_ordering_witness :
    (run_validation c9PayloadA = .error [.notUnique] ∧
      ∀ i, VError.selfReference i ∉ [VError.notUnique]) ∧
    ((∃ j, run_validation c9PayloadB = .error [.selfReference j]) ∧
      ∀ es i, run_validation c9PayloadB = .error es →
        VError.doesNotExist i ∉ es) ∧
    (∃ j, run_validation c9PayloadC = .error [.doesNotExist j] ∧
      j ∈ refIds c9PayloadC.edges ∧ j ∉ node_ids c9PayloadC) :=
  ⟨claim_c9_check_ordering.1 c9PayloadA [nodeRec "g", nodeRecP "g" "g"]
      rfl (by decide) (by decide) (by decide) (by decide)
      ⟨nodeRecP "g" "g", by decide, "g", by decide, by decide⟩,
   claim_c9_check_ordering.2.1 c9PayloadB [nodeRecP "g" "g"] rfl
      (by decide) (by decide) (by decide) (by decide)
      ⟨nodeRecP "g" "g", by decide, "g", by decide, by decide⟩
      ⟨"x", by decide, by decide⟩,
   claim_c9_check_ordering.2.2 c9PayloadC (by decide) (by decide)
      (by decide) ⟨"x", by decide, by decide⟩
      ⟨nodeRecP "a" "h", by decide, "h", by decide, by decide⟩⟩

/-- Claim C10: a node record whose parentID equals its own id, where no
submitted group has that id, fails the parent-existence check with
DoesNotExist carrying that parentID — not SelfReference, which applies
only to group records.  (The payload passes the earlier checks and the
node's parentID is the only missing parent reference.) -/
theorem claim_c10_node_self_parent (p : Payload)
    (hn : nodesOk p) (he : edgesOk p) (hg : groupsOk p)
    (hrefs : ∀ i ∈ refIds p.edges, i ∈ node_ids p)
    (r : Record) (hr : r ∈ p.nodes) (i : String)
    (_hid : Record.get r yfiles_id = some i)
    (hpar : Record.get r parent_id = some i)
    (hm : i ∉ group_ids (groupsList p))
    (honly : ∀ r' ∈ groupsList p ++ p.nodes, ∀ pid,
      Record.get r' parent_id = some pid →
      pid ∉ group_ids (groupsList p) → pid = i) :
    run_validation p = .error [.doesNotExist i] ∧
      ∀ x, run_validation p ≠ .error [.selfReference x] := by
  have hr2 : r ∈ groupsList p ++ p.nodes := List.mem_append.mpr (Or.inr hr)
  rcases validate_parents_eq_some hr2 hpar hm with ⟨j, hv, hw, hj⟩
  rcases hw with ⟨r', hr', hp'⟩
  have hji : j = i := honly r' hr' j hp' hj
  rw [hji] at hv
  have hres : run_validation p = .error [.doesNotExist i] := by
    rw [run_validation_fields_nil (fieldErrors_eq_nil hn he hg),
      validate_eq_error_parents (validate_references_eq_none hrefs) hv]
    rfl
  refine ⟨hres, ?_⟩
  intro x hx
  have h2 : ([VError.doesNotExist i] : List VError) =
      [VError.selfReference x] := Except.error.inj (hres.symm.trans hx)
  simp at h2

/-- A node that names itself as its parent, with no groups submitted. -/
def c10Payload : Payload :=
  { nodes := [nodeRecP "n" "n"]
    edges := []
    groups := none }

/-- Witness for claim C10 at a concrete self-parenting node. -/
theorem claim_c10_node_self_parent_witness :
    run_validation c10Payload = .error [.doesNotExist "n"] ∧
      ∀ x, run_validation c10Payload ≠ .error [.selfReference x] :=
  claim_c10_node_self_parent c10Payload (by decide) (by decide)
    (by decide) (by decide) (nodeRecP "n" "n") (by decide) "n"
    (by decide) (by decide) (by decide)
    (by
      intro r' hr' pid hp hm
      have hr'' : r' ∈ [nodeRecP "n" "n"] := hr'
      simp at hr''
      subst hr''
      have hps : (some "n" : Option String) = some pid := hp
      exact (Option.some_inj.mp hps).symm)

end Supergraph
